import Mathlib

/-!
Shallow embedding of triomphe's `src/header.rs`: the `HeaderSlice` composite
builders `Arc::from_header_and_iter`, `Arc::from_header_and_slice` and
`Arc::from_header_and_str`, the `HeaderWithLength` header adapter, and the
`repr(C)` layout arithmetic they perform on a 64-bit `usize`.  Panics are
modelled as `Except.error` carrying the panic message.
-/

namespace Triomphe

/-- Size of the 64-bit address space: `usize` values are naturals below this. -/
def usizeMod : Nat := 2 ^ 64

/-- Value of `isize::MAX` on a 64-bit target, the bound enforced by
`Layout::from_size_align`. -/
def isizeMax : Nat := 2 ^ 63 - 1

/-- Rust `usize::checked_mul`. -/
def checked_mul (a b : Nat) : Option Nat :=
  if a * b < usizeMod then some (a * b) else none

/-- Rust `usize::checked_add`. -/
def checked_add (a b : Nat) : Option Nat :=
  if a + b < usizeMod then some (a + b) else none

/-- Rust `usize::wrapping_add`. -/
def wrapping_add (a b : Nat) : Nat := (a + b) % usizeMod

/-- Bitwise NOT on a 64-bit `usize` (the Rust `!` operator). -/
def usizeNot (x : Nat) : Nat := (usizeMod - 1) - x

/-- Rust `usize::is_power_of_two` (exactly one bit set), which
`Layout::from_size_align` checks on the alignment. -/
def is_power_of_two (n : Nat) : Bool := n != 0 && (n &&& (n - 1)) == 0

/-- Size and alignment of a Rust type on a 64-bit target, as returned by
`mem::size_of` and `mem::align_of`. -/
structure RustTy where
  size : Nat
  align : Nat
  deriving DecidableEq

/-- Layout of `AtomicUsize` (the strong-count field) on a 64-bit target. -/
def usizeTy : RustTy := ⟨8, 8⟩

/-- Layout of `u8`. -/
def u8Ty : RustTy := ⟨1, 1⟩

/-- Round `x` up to the next multiple of `a`: the `repr(C)` field-offset rule. -/
def alignUp (x a : Nat) : Nat := (x + a - 1) / a * a

/-- Alignment of `HeaderSlice<H, [T; 0]>`: a `repr(C)` struct's alignment is
the maximum of its field alignments (a zero-length array keeps the element
alignment). -/
def hsAlign (Hty Tty : RustTy) : Nat := max Hty.align Tty.align

/-- The value of `offset_of!(HeaderSlice<H, [T; 0]>, slice)`: the header's size
rounded up to the element alignment, by the `repr(C)` layout rules. -/
def hsSliceOffset (Hty Tty : RustTy) : Nat := alignUp Hty.size Tty.align

/-- Modelled from the spec: `ArcInner` (declared in the crate root, which is
not among the sources here) is a `repr(C)` pair of an atomic `usize` strong
count followed by the payload ("count field followed by payload field"), so
`offset_of!(ArcInner<HeaderSlice<H, [T; 0]>>, data)` is the count's size
rounded up to the payload's alignment. -/
def innerDataOffset (Hty Tty : RustTy) : Nat := alignUp usizeTy.size (hsAlign Hty Tty)

/-- Alignment of `ArcInner<HeaderSlice<H, [T; 0]>>`: maximum of the count's
and the payload's alignments. -/
def innerAlign (Hty Tty : RustTy) : Nat := max usizeTy.align (hsAlign Hty Tty)

/-- The `slice_offset` both builders compute: offset of the start of the slice
in the allocation. -/
def sliceOffset (Hty Tty : RustTy) : Nat := innerDataOffset Hty Tty + hsSliceOffset Hty Tty

/-- Rust `Layout::from_size_align`: requires a power-of-two alignment and
`size <= isize::MAX - (align - 1)`. -/
def layout_from_size_align (size align : Nat) : Option (Nat × Nat) :=
  if !is_power_of_two align then none
  else if size > isizeMax - (align - 1) then none
  else some (size, align)

/-- An `ExactSizeIterator`: `len` is the length it reports up front and
`items` are the elements `next` actually yields, in order, before returning
`None` forever. -/
structure ExactSizeIter (T : Type) where
  len : Nat
  items : List T
  deriving DecidableEq

/-- The fully initialised allocation an `Arc<HeaderSlice<H, [T]>>` handle
points to: the strong count, the header, the element writes performed in the
slice region (buffer-relative byte offset paired with the value written), and
the numbers the layout computation produced. -/
structure ArcAlloc (H T : Type) where
  count : Nat
  header : H
  writes : List (Nat × T)
  slice_offset : Nat
  usable_size : Nat
  size : Nat
  align : Nat
  deriving DecidableEq

/-- The slice of the composite: the elements written into the slice region, in
address order. -/
def ArcAlloc.slice {H T : Type} (a : ArcAlloc H T) : List T := a.writes.map Prod.snd

/-- The element write loop of `from_header_and_iter`: starting at cursor
`current`, write `n` elements pulled from the iterator's remaining items,
advancing the cursor by one element stride (`szT` bytes) after each write.
Returns the writes, the final cursor and the items left in the iterator; if
the iterator runs out early, `next().expect(...)` panics. -/
def writeLoop {T : Type} (szT : Nat) : Nat → Nat → List T → Except String (List (Nat × T) × Nat × List T)
  | current, 0, rest => .ok ([], current, rest)
  | _, _ + 1, [] => .error "ExactSizeIterator over-reported length"
  | current, n + 1, x :: rest =>
    match writeLoop szT (current + szT) n rest with
    | .error e => .error e
    | .ok (ws, c, r) => .ok ((current, x) :: ws, c, r)

/-- The element-wise content of the single `copy_nonoverlapping` performed by
`from_header_and_slice`: element `i` of the source buffer lands `i` element
strides past the destination cursor. -/
def memcpyWrites {T : Type} (dst szT : Nat) : List T → List (Nat × T)
  | [] => []
  | x :: xs => (dst, x) :: memcpyWrites (dst + szT) szT xs

/-- The body of `Arc::from_header_and_iter` (src/header.rs, lines 26-109).
Panics become `.error` with the panic message; the raw allocation itself
always succeeds in this model (allocation failure aborts the process and so
never returns).  `Hty` and `Tty` are the layouts of the header type `H` and
the element type `T`.  The first `debug_assert_eq!` compares the address of
the slice field with the computed `slice_offset`; in this model the write
cursor is defined to start at the slice field, i.e. at offset `slice_offset`,
so only the second `debug_assert_eq!` (final cursor against `usable_size`)
remains a real check and is kept. -/
def from_header_and_iter {H T : Type} (Hty Tty : RustTy) (header : H)
    (items : ExactSizeIter T) : Except String (ArcAlloc H T) :=
  if Tty.size = 0 then .error "Need to think about ZST" else
  let num_items := items.len
  let inner_to_data_offset := innerDataOffset Hty Tty
  let data_to_slice_offset := hsSliceOffset Hty Tty
  let slice_offset := inner_to_data_offset + data_to_slice_offset
  match checked_mul Tty.size num_items with
  | none => .error "size overflows"
  | some slice_size =>
    match checked_add slice_offset slice_size with
    | none => .error "size overflows"
    | some usable_size =>
      let align := innerAlign Hty Tty
      let size := wrapping_add usable_size (align - 1) &&& usizeNot (align - 1)
      if size < usable_size then .error "size overflows" else
      match layout_from_size_align size align with
      | none => .error "invalid layout"
      | some _layout =>
        let count := 1
        if num_items ≠ 0 then
          match writeLoop Tty.size slice_offset num_items items.items with
          | .error e => .error e
          | .ok (ws, current, rest) =>
            match rest with
            | _ :: _ => .error "ExactSizeIterator under-reported length"
            | [] =>
              if current ≠ usable_size then
                .error "assertion failed: current == buffer.add(usable_size)"
              else
                -- the iterator is already exhausted, so the second
                -- `items.next()` assertion also sees `None` and passes
                .ok ⟨count, header, ws, slice_offset, usable_size, size, align⟩
        else
          match items.items with
          | _ :: _ => .error "ExactSizeIterator under-reported length"
          | [] => .ok ⟨count, header, [], slice_offset, usable_size, size, align⟩

/-- The body of `Arc::from_header_and_slice` (src/header.rs, lines 113-171):
the same layout computation, with the write loop replaced by a single bulk
byte copy of the whole buffer into the slice region. -/
def from_header_and_slice {H T : Type} (Hty Tty : RustTy) (header : H)
    (items : List T) : Except String (ArcAlloc H T) :=
  if Tty.size = 0 then .error "Need to think about ZST" else
  let num_items := items.length
  let inner_to_data_offset := innerDataOffset Hty Tty
  let data_to_slice_offset := hsSliceOffset Hty Tty
  let slice_offset := inner_to_data_offset + data_to_slice_offset
  match checked_mul Tty.size num_items with
  | none => .error "size overflows"
  | some slice_size =>
    match checked_add slice_offset slice_size with
    | none => .error "size overflows"
    | some usable_size =>
      let align := innerAlign Hty Tty
      let size := wrapping_add usable_size (align - 1) &&& usizeNot (align - 1)
      if size < usable_size then .error "size overflows" else
      match layout_from_size_align size align with
      | none => .error "invalid layout"
      | some _layout =>
        let count := 1
        .ok ⟨count, header, memcpyWrites slice_offset Tty.size items,
             slice_offset, usable_size, size, align⟩

/-- A Rust `&str` value: its UTF-8 bytes (each in `0..256`).  That the bytes
are valid text is a caller-supplied invariant which the code never re-checks. -/
structure RustStr where
  bytes : List Nat
  deriving DecidableEq

/-- The body of `Arc::from_header_and_str` (src/header.rs, lines 174-186): it
delegates to `from_header_and_slice` over the string's raw bytes, and the
final `from_raw_inner`/`into_raw_inner` re-typing of the handle from byte
slice to `str` leaves the allocation untouched, so the result is the
byte-slice allocation itself. -/
def from_header_and_str {H : Type} (Hty : RustTy) (header : H) (string : RustStr) :
    Except String (ArcAlloc H Nat) :=
  from_header_and_slice Hty u8Ty header string.bytes

/-- `HeaderWithLength` (src/header.rs, lines 192-198): header data with an
inline slice length. -/
structure HeaderWithLength (H : Type) where
  header : H
  length : Nat
  deriving DecidableEq

/-- `HeaderWithLength::new` (src/header.rs, lines 203-205). -/
def HeaderWithLength.new {H : Type} (header : H) (length : Nat) : HeaderWithLength H :=
  ⟨header, length⟩

/-- Layout of `HeaderWithLength<H>`: a `repr(C)` pair of the caller header and
a `usize` length field. -/
def headerWithLengthTy (Hty : RustTy) : RustTy :=
  ⟨alignUp (alignUp Hty.size usizeTy.align + usizeTy.size) (max Hty.align usizeTy.align),
   max Hty.align usizeTy.align⟩

/-- Modelled from the spec: the thin-handle builder entry point (the `ThinArc`
constructor, declared outside these sources) configures the Composite Builder
with the Inline-Length header, "adding a `length` field written once at
construction (equal to the sequence length passed into the Composite
Builder)": it reads the producer's declared count and builds the composite
with `HeaderWithLength::new(header, count)` as its header. -/
def thin_from_header_and_iter {H T : Type} (Hty Tty : RustTy) (header : H)
    (items : ExactSizeIter T) : Except String (ArcAlloc (HeaderWithLength H) T) :=
  from_header_and_iter (headerWithLengthTy Hty) Tty (HeaderWithLength.new header items.len) items

/-- Header of the composite a builder returned, when it returned one. -/
def resHeader {H T : Type} : Except String (ArcAlloc H T) → Option H
  | .ok a => some a.header
  | .error _ => none

/-- Slice of the composite a builder returned, when it returned one. -/
def resSlice {H T : Type} : Except String (ArcAlloc H T) → Option (List T)
  | .ok a => some a.slice
  | .error _ => none

/-- Element writes a builder performed, when it returned a composite. -/
def resWrites {H T : Type} : Except String (ArcAlloc H T) → Option (List (Nat × T))
  | .ok a => some a.writes
  | .error _ => none

/-- Allocation size of the composite a builder returned, when it returned one. -/
def resSize {H T : Type} : Except String (ArcAlloc H T) → Option Nat
  | .ok a => some a.size
  | .error _ => none

/-- Usable size (slice offset plus payload bytes) of a returned composite. -/
def resUsable {H T : Type} : Except String (ArcAlloc H T) → Option Nat
  | .ok a => some a.usable_size
  | .error _ => none

/-- Slice offset of a returned composite. -/
def resSliceOffset {H T : Type} : Except String (ArcAlloc H T) → Option Nat
  | .ok a => some a.slice_offset
  | .error _ => none

/-- Whether a builder returned a composite rather than panicking. -/
def resOk {H T : Type} : Except String (ArcAlloc H T) → Bool
  | .ok _ => true
  | .error _ => false

/-- The panic message a builder failed with, when it panicked. -/
def resError {H T : Type} : Except String (ArcAlloc H T) → Option String
  | .ok _ => none
  | .error e => some e

/-- The total allocation size stated in the spec's own words, for comparison
with the code (claim C6): "the header size plus `length * element_size`,
rounded up to the allocation's required alignment (the maximum of header
alignment, element alignment, and the Shared Allocation Block's own alignment
requirement)". -/
def specTotalSize (Hty Tty : RustTy) (n : Nat) : Nat :=
  alignUp (Hty.size + n * Tty.size) (max (max Hty.align Tty.align) usizeTy.align)

/-! Arithmetic facts about the 64-bit mask-based round-up. -/

theorem usizeNot_two_pow_sub_one (k : Nat) (hk : k ≤ 64) :
    usizeNot (2 ^ k - 1) = 2 ^ 64 - 2 ^ k := by
  have h1 : (1 : Nat) ≤ 2 ^ k := Nat.one_le_two_pow
  have h2 : (2 : Nat) ^ k ≤ 2 ^ 64 := Nat.pow_le_pow_right (by norm_num) hk
  unfold usizeNot usizeMod
  omega

theorem land_high_mask (k : Nat) (hk : k ≤ 64) (x : Nat) (hx : x < 2 ^ 64) :
    x &&& (2 ^ 64 - 2 ^ k) = x / 2 ^ k * 2 ^ k := by
  have hmask : (2 : Nat) ^ 64 - 2 ^ k = (2 ^ (64 - k) - 1) <<< k := by
    rw [Nat.shiftLeft_eq, Nat.sub_mul, ← Nat.pow_add, Nat.sub_add_cancel hk, Nat.one_mul]
  have hdiv : x / 2 ^ k * 2 ^ k = (x >>> k) <<< k := by
    rw [Nat.shiftRight_eq_div_pow, Nat.shiftLeft_eq]
  rw [hmask, hdiv]
  apply Nat.eq_of_testBit_eq
  intro idx
  simp only [Nat.testBit_and, Nat.testBit_shiftLeft, Nat.testBit_two_pow_sub_one,
    Nat.testBit_shiftRight]
  by_cases hik : k ≤ idx
  · have hadd : k + (idx - k) = idx := by omega
    rw [hadd]
    by_cases h64 : idx < 64
    · have hlt : idx - k < 64 - k := by omega
      simp [ge_iff_le, hik, hlt]
    · have hge : (2 : Nat) ^ 64 ≤ 2 ^ idx := Nat.pow_le_pow_right (by norm_num) (by omega)
      have hbit : x.testBit idx = false := Nat.testBit_lt_two_pow (lt_of_lt_of_le hx hge)
      have hnlt : ¬(idx - k < 64 - k) := by omega
      simp [ge_iff_le, hik, hnlt, hbit]
  · simp [ge_iff_le, hik]

theorem alignUp_le (x a : Nat) : alignUp x a ≤ x + a - 1 :=
  Nat.div_mul_le_self _ _

theorem le_alignUp (x a : Nat) (ha : 0 < a) : x ≤ alignUp x a := by
  unfold alignUp
  have h := Nat.div_add_mod (x + a - 1) a
  have hlt : (x + a - 1) % a < a := Nat.mod_lt _ ha
  rw [Nat.mul_comm]
  omega

theorem roundMask_eq (k x : Nat) (hk : k ≤ 64) (hx : x + 2 ^ k - 1 < usizeMod) :
    wrapping_add x (2 ^ k - 1) &&& usizeNot (2 ^ k - 1) = alignUp x (2 ^ k) := by
  have h1 : (1 : Nat) ≤ 2 ^ k := Nat.one_le_two_pow
  have hm : usizeMod = 2 ^ 64 := rfl
  have hx2 : x + (2 ^ k - 1) < usizeMod := by omega
  rw [usizeNot_two_pow_sub_one k hk]
  unfold wrapping_add
  rw [Nat.mod_eq_of_lt hx2]
  rw [land_high_mask k hk _ (by omega)]
  unfold alignUp
  have hxx : x + (2 ^ k - 1) = x + 2 ^ k - 1 := by omega
  rw [hxx]

theorem roundMask_lt (k x : Nat) (hk : k ≤ 64) (hxlt : x < usizeMod)
    (hov : usizeMod ≤ x + 2 ^ k - 1) :
    wrapping_add x (2 ^ k - 1) &&& usizeNot (2 ^ k - 1) < x := by
  have h1 : (1 : Nat) ≤ 2 ^ k := Nat.one_le_two_pow
  have h2 : (2 : Nat) ^ k ≤ 2 ^ 64 := Nat.pow_le_pow_right (by norm_num) hk
  have hm : usizeMod = 2 ^ 64 := rfl
  have hwrap : wrapping_add x (2 ^ k - 1) = x + (2 ^ k - 1) - usizeMod := by
    unfold wrapping_add
    rw [Nat.mod_eq_sub_mod (by omega)]
    rw [Nat.mod_eq_of_lt (by omega)]
  calc wrapping_add x (2 ^ k - 1) &&& usizeNot (2 ^ k - 1)
      ≤ wrapping_add x (2 ^ k - 1) := Nat.and_le_left
    _ < x := by rw [hwrap]; omega

theorem max_two_pow (a b : Nat) : max (2 ^ a) (2 ^ b) = 2 ^ max a b := by
  rcases Nat.le_total a b with h | h
  · rw [Nat.max_eq_right (Nat.pow_le_pow_right (by norm_num) h), Nat.max_eq_right h]
  · rw [Nat.max_eq_left (Nat.pow_le_pow_right (by norm_num) h), Nat.max_eq_left h]

theorem innerAlign_eq_pow (Hty Tty : RustTy) (i j : Nat)
    (hH : Hty.align = 2 ^ i) (hT : Tty.align = 2 ^ j) :
    innerAlign Hty Tty = 2 ^ max 3 (max i j) := by
  unfold innerAlign hsAlign usizeTy
  rw [hH, hT, max_two_pow i j]
  have h8 : (8 : Nat) = 2 ^ 3 := by norm_num
  rw [h8, max_two_pow 3 (max i j)]

theorem is_power_of_two_pow (k : Nat) : is_power_of_two (2 ^ k) = true := by
  unfold is_power_of_two
  have h0 : (2 : Nat) ^ k ≠ 0 := Nat.pos_iff_ne_zero.mp (Nat.pos_pow_of_pos _ (by norm_num))
  have h : 2 ^ k &&& (2 ^ k - 1) = 0 := by
    rw [Nat.and_pow_two_sub_one_eq_mod]
    exact Nat.mod_self _
  simp [h0, h]

/-! Facts about the write loop and the bulk copy. -/

theorem memcpyWrites_map_snd {T : Type} (szT : Nat) : ∀ (dst : Nat) (xs : List T),
    (memcpyWrites dst szT xs).map Prod.snd = xs
  | _, [] => rfl
  | dst, x :: xs => by
    simp [memcpyWrites, memcpyWrites_map_snd szT (dst + szT) xs]

theorem memcpyWrites_map_fst {T : Type} (szT : Nat) : ∀ (dst : Nat) (xs : List T),
    (memcpyWrites dst szT xs).map Prod.fst =
      (List.range xs.length).map (fun idx => dst + idx * szT)
  | dst, [] => rfl
  | dst, x :: xs => by
    have hfun : ((fun idx => dst + idx * szT) ∘ Nat.succ) =
        fun idx => dst + szT + idx * szT := by
      funext idx
      simp [Function.comp, Nat.succ_mul]
      ring
    simp only [memcpyWrites, List.map_cons, List.length_cons, List.range_succ_eq_map,
      memcpyWrites_map_fst szT (dst + szT) xs, List.map_map, hfun]
    simp

theorem memcpyWrites_length {T : Type} (szT : Nat) : ∀ (dst : Nat) (xs : List T),
    (memcpyWrites dst szT xs).length = xs.length
  | _, [] => rfl
  | dst, x :: xs => by
    simp [memcpyWrites, memcpyWrites_length szT (dst + szT) xs]

theorem writeLoop_spec {T : Type} (szT : Nat) : ∀ (n current : Nat) (xs : List T),
    n ≤ xs.length →
    writeLoop szT current n xs =
      .ok (memcpyWrites current szT (xs.take n), current + n * szT, xs.drop n)
  | 0, current, xs, _ => by simp [writeLoop, memcpyWrites]
  | n + 1, _, [], h => absurd h (by simp)
  | n + 1, current, x :: xs, h => by
    have ih := writeLoop_spec szT n (current + szT) xs (by simpa using h)
    have hmul : current + szT + n * szT = current + (n + 1) * szT := by
      rw [Nat.succ_mul]; omega
    simp [writeLoop, ih, memcpyWrites, hmul]

theorem writeLoop_short {T : Type} (szT : Nat) : ∀ (n current : Nat) (xs : List T),
    xs.length < n →
    writeLoop szT current n xs = .error "ExactSizeIterator over-reported length"
  | 0, _, xs, h => absurd h (by simp)
  | _ + 1, _, [], _ => rfl
  | n + 1, current, x :: xs, h => by
    have ih := writeLoop_short szT n (current + szT) xs (by simpa using h)
    simp [writeLoop, ih]

theorem writeLoop_ok_inv {T : Type} {szT c n : Nat} {xs : List T}
    {ws : List (Nat × T)} {cur : Nat} {rest : List T}
    (h : writeLoop szT c n xs = .ok (ws, cur, rest)) :
    n ≤ xs.length ∧ ws = memcpyWrites c szT (xs.take n) ∧
      cur = c + n * szT ∧ rest = xs.drop n := by
  rcases le_or_lt n xs.length with hle | hlt
  · rw [writeLoop_spec szT n c xs hle] at h
    simp only [Except.ok.injEq, Prod.mk.injEq] at h
    exact ⟨hle, h.1.symm, h.2.1.symm, h.2.2.symm⟩
  · rw [writeLoop_short szT n c xs hlt] at h
    cases h

/-! Evaluation of the builders under the layout-arithmetic side conditions:
power-of-two alignments (as Rust guarantees for any type) and a total that
fits under the `Layout` bound. -/

theorem fhi_guards_pass {H T : Type} (Hty Tty : RustTy) (i j : Nat)
    (hH : Hty.align = 2 ^ i) (hT : Tty.align = 2 ^ j) (hi : i ≤ 63) (hj : j ≤ 63)
    (hsz : Tty.size ≠ 0) (hdr : H) (it : ExactSizeIter T)
    (hfit : sliceOffset Hty Tty + Tty.size * it.len + 2 * (innerAlign Hty Tty - 1) ≤ isizeMax) :
    from_header_and_iter Hty Tty hdr it =
      if it.len ≠ 0 then
        match writeLoop Tty.size (sliceOffset Hty Tty) it.len it.items with
        | .error e => .error e
        | .ok (ws, current, rest) =>
          match rest with
          | _ :: _ => .error "ExactSizeIterator under-reported length"
          | [] =>
            if current ≠ sliceOffset Hty Tty + Tty.size * it.len then
              .error "assertion failed: current == buffer.add(usable_size)"
            else
              .ok ⟨1, hdr, ws, sliceOffset Hty Tty,
                   sliceOffset Hty Tty + Tty.size * it.len,
                   alignUp (sliceOffset Hty Tty + Tty.size * it.len) (innerAlign Hty Tty),
                   innerAlign Hty Tty⟩
      else
        match it.items with
        | _ :: _ => .error "ExactSizeIterator under-reported length"
        | [] =>
          .ok ⟨1, hdr, [], sliceOffset Hty Tty,
               sliceOffset Hty Tty + Tty.size * it.len,
               alignUp (sliceOffset Hty Tty + Tty.size * it.len) (innerAlign Hty Tty),
               innerAlign Hty Tty⟩ := by
  have hm : usizeMod = 2 ^ 64 := rfl
  have hIM : isizeMax = 2 ^ 63 - 1 := rfl
  have hal : innerAlign Hty Tty = 2 ^ max 3 (max i j) := innerAlign_eq_pow _ _ i j hH hT
  have hij : max i j ≤ 63 := Nat.max_le.mpr ⟨hi, hj⟩
  have hK63 : max 3 (max i j) ≤ 63 := Nat.max_le.mpr ⟨by norm_num, hij⟩
  have h1K : (1 : Nat) ≤ 2 ^ max 3 (max i j) := Nat.one_le_two_pow
  have hKle : (2 : Nat) ^ max 3 (max i j) ≤ 2 ^ 63 := Nat.pow_le_pow_right (by norm_num) hK63
  have hnum : (2 : Nat) ^ 63 < 2 ^ 64 := by norm_num
  have hcm : checked_mul Tty.size it.len = some (Tty.size * it.len) := by
    unfold checked_mul
    rw [if_pos]
    omega
  have hca : checked_add (sliceOffset Hty Tty) (Tty.size * it.len) =
      some (sliceOffset Hty Tty + Tty.size * it.len) := by
    unfold checked_add
    rw [if_pos]
    omega
  have halpos : 0 < innerAlign Hty Tty := by omega
  have hmask : wrapping_add (sliceOffset Hty Tty + Tty.size * it.len) (innerAlign Hty Tty - 1) &&&
      usizeNot (innerAlign Hty Tty - 1) =
      alignUp (sliceOffset Hty Tty + Tty.size * it.len) (innerAlign Hty Tty) := by
    rw [hal]
    exact roundMask_eq _ _ (by omega) (by omega)
  have hup := le_alignUp (sliceOffset Hty Tty + Tty.size * it.len) (innerAlign Hty Tty) halpos
  have hdown := alignUp_le (sliceOffset Hty Tty + Tty.size * it.len) (innerAlign Hty Tty)
  have hsize_le : alignUp (sliceOffset Hty Tty + Tty.size * it.len) (innerAlign Hty Tty) ≤
      isizeMax - (innerAlign Hty Tty - 1) := by omega
  have hlay : layout_from_size_align
      (alignUp (sliceOffset Hty Tty + Tty.size * it.len) (innerAlign Hty Tty))
      (innerAlign Hty Tty) =
      some (alignUp (sliceOffset Hty Tty + Tty.size * it.len) (innerAlign Hty Tty),
            innerAlign Hty Tty) := by
    unfold layout_from_size_align
    rw [hal, is_power_of_two_pow]
    rw [← hal]
    simp only [Bool.not_true, Bool.false_eq_true, if_false]
    rw [if_neg (by omega)]
  unfold from_header_and_iter
  rw [if_neg hsz]
  show (match checked_mul Tty.size it.len with
    | none => Except.error "size overflows"
    | some slice_size => _) = _
  rw [hcm]
  simp only
  rw [show innerDataOffset Hty Tty + hsSliceOffset Hty Tty = sliceOffset Hty Tty from rfl]
  rw [hca]
  simp only
  rw [hmask]
  rw [if_neg (Nat.not_lt.mpr hup)]
  rw [hlay]

theorem fhs_eq_fhi {H T : Type} (Hty Tty : RustTy) (hdr : H) (xs : List T) :
    from_header_and_slice Hty Tty hdr xs = from_header_and_iter Hty Tty hdr ⟨xs.length, xs⟩ := by
  unfold from_header_and_slice from_header_and_iter
  by_cases h0 : Tty.size = 0
  · rw [if_pos h0, if_pos h0]
  rw [if_neg h0, if_neg h0]
  simp only
  cases hcm : checked_mul Tty.size xs.length with
  | none => rfl
  | some slice_size =>
    have hsl : slice_size = Tty.size * xs.length := by
      unfold checked_mul at hcm
      split at hcm
      · exact (Option.some.injEq _ _ ▸ hcm).symm
      · cases hcm
    simp only
    cases hca : checked_add (innerDataOffset Hty Tty + hsSliceOffset Hty Tty) slice_size with
    | none => rfl
    | some usable_size =>
      have hus : usable_size = innerDataOffset Hty Tty + hsSliceOffset Hty Tty + slice_size := by
        unfold checked_add at hca
        split at hca
        · exact (Option.some.injEq _ _ ▸ hca).symm
        · cases hca
      simp only
      by_cases hlt : (wrapping_add usable_size (innerAlign Hty Tty - 1) &&&
          usizeNot (innerAlign Hty Tty - 1)) < usable_size
      · rw [if_pos hlt, if_pos hlt]
      rw [if_neg hlt, if_neg hlt]
      cases hlay : layout_from_size_align
          (wrapping_add usable_size (innerAlign Hty Tty - 1) &&&
            usizeNot (innerAlign Hty Tty - 1)) (innerAlign Hty Tty) with
      | none => rfl
      | some l =>
        simp only
        by_cases hn : xs.length ≠ 0
        · rw [if_pos hn]
          rw [writeLoop_spec Tty.size xs.length
            (innerDataOffset Hty Tty + hsSliceOffset Hty Tty) xs (le_refl _)]
          simp only [List.take_length, List.drop_length]
          rw [if_neg (not_ne_iff.mpr (by rw [hus, hsl]; ring))]
        · rw [if_neg hn]
          have hnil : xs = [] := List.length_eq_zero.mp (not_ne_iff.mp hn)
          subst hnil
          rfl

theorem fhi_eval {H T : Type} (Hty Tty : RustTy) (i j : Nat)
    (hH : Hty.align = 2 ^ i) (hT : Tty.align = 2 ^ j) (hi : i ≤ 63) (hj : j ≤ 63)
    (hsz : Tty.size ≠ 0) (hdr : H) (it : ExactSizeIter T)
    (hfit : sliceOffset Hty Tty + Tty.size * it.len + 2 * (innerAlign Hty Tty - 1) ≤ isizeMax)
    (hexact : it.items.length = it.len) :
    from_header_and_iter Hty Tty hdr it =
      .ok ⟨1, hdr, memcpyWrites (sliceOffset Hty Tty) Tty.size it.items,
           sliceOffset Hty Tty, sliceOffset Hty Tty + Tty.size * it.len,
           alignUp (sliceOffset Hty Tty + Tty.size * it.len) (innerAlign Hty Tty),
           innerAlign Hty Tty⟩ := by
  rw [fhi_guards_pass Hty Tty i j hH hT hi hj hsz hdr it hfit]
  by_cases hn : it.len ≠ 0
  · rw [if_pos hn]
    rw [← hexact]
    rw [writeLoop_spec Tty.size it.items.length (sliceOffset Hty Tty) it.items (le_refl _)]
    simp only [List.take_length, List.drop_length]
    rw [if_neg (not_ne_iff.mpr (by ring))]
  · rw [if_neg hn]
    have hn0 : it.len = 0 := not_ne_iff.mp hn
    have hnil : it.items = [] := List.length_eq_zero.mp (hexact.trans hn0)
    rw [hnil]
    rfl

theorem fhi_ok_inv {H T : Type} {Hty Tty : RustTy} {hdr : H} {it : ExactSizeIter T}
    {r : ArcAlloc H T} (h : from_header_and_iter Hty Tty hdr it = .ok r) :
    Tty.size ≠ 0 ∧ it.items.length = it.len ∧ r.count = 1 ∧ r.header = hdr ∧
    r.writes = memcpyWrites (sliceOffset Hty Tty) Tty.size it.items ∧
    r.slice_offset = sliceOffset Hty Tty ∧
    r.usable_size = sliceOffset Hty Tty + Tty.size * it.len ∧
    r.usable_size < usizeMod ∧
    r.align = innerAlign Hty Tty ∧
    r.size = wrapping_add r.usable_size (r.align - 1) &&& usizeNot (r.align - 1) ∧
    r.usable_size ≤ r.size := by
  unfold from_header_and_iter at h
  by_cases h0 : Tty.size = 0
  · rw [if_pos h0] at h
    cases h
  rw [if_neg h0] at h
  simp only at h
  cases hcm : checked_mul Tty.size it.len with
  | none =>
    rw [hcm] at h
    cases h
  | some slice_size =>
    have hsl : slice_size = Tty.size * it.len := by
      unfold checked_mul at hcm
      split at hcm
      · exact (Option.some.injEq _ _ ▸ hcm).symm
      · cases hcm
    rw [hcm] at h
    simp only at h
    cases hca : checked_add (innerDataOffset Hty Tty + hsSliceOffset Hty Tty) slice_size with
    | none =>
      rw [hca] at h
      cases h
    | some usable_size =>
      have hus : usable_size = sliceOffset Hty Tty + Tty.size * it.len := by
        unfold checked_add at hca
        split at hca
        · rw [← hsl]
          exact (Option.some.injEq _ _ ▸ hca).symm
        · cases hca
      have husm : usable_size < usizeMod := by
        unfold checked_add at hca
        split at hca
        · have he : usable_size = innerDataOffset Hty Tty + hsSliceOffset Hty Tty + slice_size :=
            (Option.some.injEq _ _ ▸ hca).symm
          omega
        · cases hca
      rw [hca] at h
      simp only at h
      by_cases hlt : (wrapping_add usable_size (innerAlign Hty Tty - 1) &&&
          usizeNot (innerAlign Hty Tty - 1)) < usable_size
      · rw [if_pos hlt] at h
        cases h
      rw [if_neg hlt] at h
      cases hlay : layout_from_size_align
          (wrapping_add usable_size (innerAlign Hty Tty - 1) &&&
            usizeNot (innerAlign Hty Tty - 1)) (innerAlign Hty Tty) with
      | none =>
        rw [hlay] at h
        cases h
      | some l =>
        rw [hlay] at h
        simp only at h
        by_cases hn : it.len ≠ 0
        · rw [if_pos hn] at h
          cases hwl : writeLoop Tty.size (innerDataOffset Hty Tty + hsSliceOffset Hty Tty)
              it.len it.items with
          | error e =>
            rw [hwl] at h
            cases h
          | ok res =>
            obtain ⟨ws, cur, rest⟩ := res
            obtain ⟨hle, hws, hcur, hrest⟩ := writeLoop_ok_inv hwl
            rw [hwl] at h
            simp only at h
            cases hr : rest with
            | cons y ys =>
              rw [hr] at h
              cases h
            | nil =>
              rw [hr] at h
              simp only at h
              have hlen : it.items.length = it.len := by
                have hd : it.items.drop it.len = [] := by rw [← hrest, hr]
                have := List.drop_eq_nil_iff.mp hd
                omega
              have hwseq : ws = memcpyWrites (sliceOffset Hty Tty) Tty.size it.items := by
                rw [hws, ← hlen, List.take_length]
                rfl
              split at h
              · cases h
              · injection h with h2
                subst h2
                exact ⟨h0, hlen, rfl, rfl, hwseq, rfl, hus, husm, rfl, rfl,
                  Nat.le_of_not_lt hlt⟩
        · rw [if_neg hn] at h
          cases hits : it.items with
          | cons y ys =>
            rw [hits] at h
            cases h
          | nil =>
            rw [hits] at h
            simp only at h
            injection h with h2
            subst h2
            have hn0 : it.len = 0 := not_ne_iff.mp hn
            exact ⟨h0, by simp [hn0], rfl, rfl, rfl, rfl, hus, husm, rfl, rfl,
              Nat.le_of_not_lt hlt⟩

/-! The claims. -/

/-- C1: for every header value and every finite sequence of elements of a
non-zero-size element type, presented as an exact-size iterator (with the
power-of-two alignments Rust guarantees and a total within the allocator
bound), `from_header_and_iter` returns a handle whose header equals the given
header and whose slice equals the iterated sequence, element for element, in
iterator order. -/
theorem from_header_and_iter_round_trip {H T : Type} (Hty Tty : RustTy) (i j : Nat)
    (hH : Hty.align = 2 ^ i) (hT : Tty.align = 2 ^ j) (hi : i ≤ 63) (hj : j ≤ 63)
    (hsz : Tty.size ≠ 0) (hdr : H) (it : ExactSizeIter T)
    (hfit : sliceOffset Hty Tty + Tty.size * it.len + 2 * (innerAlign Hty Tty - 1) ≤ isizeMax)
    (hexact : it.items.length = it.len) :
    resHeader (from_header_and_iter Hty Tty hdr it) = some hdr ∧
    resSlice (from_header_and_iter Hty Tty hdr it) = some it.items := by
  rw [fhi_eval Hty Tty i j hH hT hi hj hsz hdr it hfit hexact]
  exact ⟨rfl, by simp [resSlice, ArcAlloc.slice, memcpyWrites_map_snd]⟩

theorem from_header_and_iter_round_trip_witness :
    resHeader (from_header_and_iter ⟨8, 4⟩ ⟨2, 2⟩ ((42, 17) : Nat × Nat)
      ⟨7, [1, 2, 3, 4, 5, 6, 7]⟩) = some (42, 17) ∧
    resSlice (from_header_and_iter ⟨8, 4⟩ ⟨2, 2⟩ ((42, 17) : Nat × Nat)
      ⟨7, [1, 2, 3, 4, 5, 6, 7]⟩) = some [1, 2, 3, 4, 5, 6, 7] :=
  from_header_and_iter_round_trip ⟨8, 4⟩ ⟨2, 2⟩ 2 1 (by decide) (by decide) (by decide)
    (by decide) (by decide) (42, 17) ⟨7, [1, 2, 3, 4, 5, 6, 7]⟩ (by decide) (by decide)

/-- C2: for every header value and every slice, `from_header_and_slice`
produces exactly the composite `from_header_and_iter` produces from an
iterator that reports and yields that slice: the bulk byte copy is equivalent
to the element-by-element write loop under the same layout computation. -/
theorem from_header_and_slice_eq_from_header_and_iter {H T : Type} (Hty Tty : RustTy)
    (hdr : H) (xs : List T) :
    from_header_and_slice Hty Tty hdr xs =
      from_header_and_iter Hty Tty hdr ⟨xs.length, xs⟩ :=
  fhs_eq_fhi Hty Tty hdr xs

/-- C3: if the exact-size iterator yields strictly fewer items than its
declared count (including the case of a declared zero count), or yields any
item beyond the declared count, `from_header_and_iter` panics (over-report
panic when short, under-report panic when long) instead of returning a
handle. -/
theorem from_header_and_iter_length_mismatch_panics {H T : Type} (Hty Tty : RustTy)
    (i j : Nat)
    (hH : Hty.align = 2 ^ i) (hT : Tty.align = 2 ^ j) (hi : i ≤ 63) (hj : j ≤ 63)
    (hsz : Tty.size ≠ 0) (hdr : H) (it : ExactSizeIter T)
    (hfit : sliceOffset Hty Tty + Tty.size * it.len + 2 * (innerAlign Hty Tty - 1) ≤ isizeMax)
    (hmis : it.items.length ≠ it.len) :
    from_header_and_iter Hty Tty hdr it =
      .error (if it.items.length < it.len then "ExactSizeIterator over-reported length"
              else "ExactSizeIterator under-reported length") := by
  rw [fhi_guards_pass Hty Tty i j hH hT hi hj hsz hdr it hfit]
  by_cases hn : it.len ≠ 0
  · rw [if_pos hn]
    rcases lt_or_gt_of_ne hmis with hlt | hgt
    · rw [writeLoop_short Tty.size it.len (sliceOffset Hty Tty) it.items hlt]
      rw [if_pos hlt]
    · have hle : it.len ≤ it.items.length := le_of_lt hgt
      rw [writeLoop_spec Tty.size it.len (sliceOffset Hty Tty) it.items hle]
      simp only
      cases hdrop : it.items.drop it.len with
      | nil =>
        have := List.drop_eq_nil_iff.mp hdrop
        omega
      | cons y ys =>
        rw [if_neg (show ¬it.items.length < it.len by omega)]
  · rw [if_neg hn]
    have hn0 : it.len = 0 := not_ne_iff.mp hn
    cases hits : it.items with
    | nil => simp [hits, hn0] at hmis
    | cons y ys =>
      rw [hn0, if_neg (Nat.not_lt_zero _)]

theorem from_header_and_iter_length_mismatch_panics_witness :
    from_header_and_iter ⟨8, 4⟩ ⟨2, 2⟩ (0 : Nat) ⟨2, [1, 2, 3]⟩ =
      .error "ExactSizeIterator under-reported length" := by
  have h := from_header_and_iter_length_mismatch_panics ⟨8, 4⟩ ⟨2, 2⟩ 2 1 (by decide)
    (by decide) (by decide) (by decide) (by decide) (0 : Nat) ⟨2, [1, 2, 3]⟩
    (by decide) (by decide)
  simpa using h

/-- C4: in both builders, if the payload product `element_size * n`, the sum
`slice_offset + slice_size`, or rounding the usable size up to the alignment
overflows the 64-bit `usize` domain, construction panics with the
size-overflow message, so no truncated or undersized buffer is ever
allocated. -/
theorem builders_overflow_panic {H T : Type} (Hty Tty : RustTy) (i j : Nat)
    (hH : Hty.align = 2 ^ i) (hT : Tty.align = 2 ^ j) (hi : i ≤ 63) (hj : j ≤ 63)
    (hsz : Tty.size ≠ 0) (hdr : H) (it : ExactSizeIter T) (ys : List T)
    (hys : ys.length = it.len)
    (hov : usizeMod ≤ Tty.size * it.len ∨
           usizeMod ≤ sliceOffset Hty Tty + Tty.size * it.len ∨
           usizeMod ≤ sliceOffset Hty Tty + Tty.size * it.len + (innerAlign Hty Tty - 1)) :
    from_header_and_iter Hty Tty hdr it = .error "size overflows" ∧
    from_header_and_slice Hty Tty hdr ys = .error "size overflows" := by
  have hal : innerAlign Hty Tty = 2 ^ max 3 (max i j) := innerAlign_eq_pow _ _ i j hH hT
  have hK63 : max 3 (max i j) ≤ 63 := Nat.max_le.mpr ⟨by norm_num, Nat.max_le.mpr ⟨hi, hj⟩⟩
  have h1K : (1 : Nat) ≤ 2 ^ max 3 (max i j) := Nat.one_le_two_pow
  have key : ∀ ls : List T,
      from_header_and_iter Hty Tty hdr ⟨it.len, ls⟩ = .error "size overflows" := by
    intro ls
    unfold from_header_and_iter
    rw [if_neg hsz]
    simp only
    by_cases hc1 : Tty.size * it.len < usizeMod
    case neg =>
      have hnone : checked_mul Tty.size it.len = none := by
        unfold checked_mul
        rw [if_neg hc1]
      rw [hnone]
    case pos =>
    have hcm : checked_mul Tty.size it.len = some (Tty.size * it.len) := by
      unfold checked_mul
      rw [if_pos hc1]
    rw [hcm]
    simp only
    rw [show innerDataOffset Hty Tty + hsSliceOffset Hty Tty = sliceOffset Hty Tty from rfl]
    by_cases hc2 : sliceOffset Hty Tty + Tty.size * it.len < usizeMod
    case neg =>
      have hnone : checked_add (sliceOffset Hty Tty) (Tty.size * it.len) = none := by
        unfold checked_add
        rw [if_neg hc2]
      rw [hnone]
    case pos =>
    have hca : checked_add (sliceOffset Hty Tty) (Tty.size * it.len) =
        some (sliceOffset Hty Tty + Tty.size * it.len) := by
      unfold checked_add
      rw [if_pos hc2]
    rw [hca]
    simp only
    have hov3 : usizeMod ≤ sliceOffset Hty Tty + Tty.size * it.len +
        (innerAlign Hty Tty - 1) := by
      rcases hov with h | h | h
      · omega
      · omega
      · exact h
    have hlt : wrapping_add (sliceOffset Hty Tty + Tty.size * it.len)
        (innerAlign Hty Tty - 1) &&& usizeNot (innerAlign Hty Tty - 1) <
        sliceOffset Hty Tty + Tty.size * it.len := by
      rw [hal]
      exact roundMask_lt _ _ (by omega) hc2 (by omega)
    rw [if_pos hlt]
  constructor
  · exact key it.items
  · rw [fhs_eq_fhi, hys]
    exact key ys

theorem builders_overflow_panic_witness :
    from_header_and_iter ⟨0, 1⟩ ⟨1, 1⟩ (0 : Nat) ⟨2 ^ 64, ([] : List Nat)⟩ =
      .error "size overflows" ∧
    from_header_and_slice ⟨0, 1⟩ ⟨1, 1⟩ (0 : Nat) (List.replicate (2 ^ 64) 0) =
      .error "size overflows" :=
  builders_overflow_panic ⟨0, 1⟩ ⟨1, 1⟩ 0 0 (by decide) (by decide) (by decide) (by decide)
    (by decide) 0 ⟨2 ^ 64, []⟩ (List.replicate (2 ^ 64) 0) (List.length_replicate _ _)
    (Or.inl (by decide))

/-- C5 (ThinArc entry point modelled from the spec): every composite built
through the inline-length builder carries a header whose stored `length`
equals the actual trailing-slice length, for any requested length. -/
theorem thin_header_length_invariant {H T : Type} (Hty Tty : RustTy) (hdr : H)
    (it : ExactSizeIter T)
    (hok : resOk (thin_from_header_and_iter Hty Tty hdr it) = true) :
    (resHeader (thin_from_header_and_iter Hty Tty hdr it)).map HeaderWithLength.length =
      (resSlice (thin_from_header_and_iter Hty Tty hdr it)).map List.length := by
  cases hE : thin_from_header_and_iter Hty Tty hdr it with
  | error e =>
    rw [hE] at hok
    simp [resOk] at hok
  | ok r =>
    have hE2 : from_header_and_iter (headerWithLengthTy Hty) Tty
        (HeaderWithLength.new hdr it.len) it = .ok r := hE
    obtain ⟨-, hlen, -, hhdr, hws, -, -, -, -, -, -⟩ := fhi_ok_inv hE2
    simp [resHeader, resSlice, ArcAlloc.slice, hws, hhdr, HeaderWithLength.new,
      memcpyWrites_map_snd, hlen]

theorem thin_header_length_invariant_witness :
    (resHeader (thin_from_header_and_iter ⟨4, 4⟩ ⟨2, 2⟩ (7 : Nat) ⟨2, [5, 6]⟩)).map
        HeaderWithLength.length =
      (resSlice (thin_from_header_and_iter ⟨4, 4⟩ ⟨2, 2⟩ (7 : Nat) ⟨2, [5, 6]⟩)).map
        List.length :=
  thin_header_length_invariant ⟨4, 4⟩ ⟨2, 2⟩ 7 ⟨2, [5, 6]⟩ (by decide)

/-- C6 counterexample: with a header of size 4 and alignment 4, elements of
size 2 and alignment 2, and one element, the code allocates 16 bytes while
the spec's formula (header size plus payload, rounded up to the maximal
alignment) yields 8 — the formula omits the strong-count word and the
`repr(C)` padding in front of the slice. -/
theorem total_size_spec_counterexample :
    resSize (from_header_and_iter ⟨4, 4⟩ ⟨2, 2⟩ (0 : Nat) ⟨1, [5]⟩) = some 16 ∧
    specTotalSize ⟨4, 4⟩ ⟨2, 2⟩ 1 = 8 ∧
    resSize (from_header_and_iter ⟨4, 4⟩ ⟨2, 2⟩ (0 : Nat) ⟨1, [5]⟩) ≠
      some (specTotalSize ⟨4, 4⟩ ⟨2, 2⟩ 1) := by
  exact ⟨by decide, by decide, by decide⟩

/-- C6 (amended): whenever a build succeeds, the total allocation size equals
the slice offset (the strong-count word followed by the header, each placed by
the `repr(C)` rules) plus `n * element_size`, rounded up to the allocation
alignment, which is the maximum of the count-word alignment, the header
alignment and the element alignment. -/
theorem total_size_formula {H T : Type} (Hty Tty : RustTy) (i j : Nat)
    (hH : Hty.align = 2 ^ i) (hT : Tty.align = 2 ^ j) (hi : i ≤ 63) (hj : j ≤ 63)
    (hdr : H) (it : ExactSizeIter T)
    (hok : resOk (from_header_and_iter Hty Tty hdr it) = true) :
    resSize (from_header_and_iter Hty Tty hdr it) =
      some (alignUp (sliceOffset Hty Tty + Tty.size * it.len) (innerAlign Hty Tty)) := by
  cases hE : from_header_and_iter Hty Tty hdr it with
  | error e =>
    rw [hE] at hok
    simp [resOk] at hok
  | ok r =>
    obtain ⟨-, -, -, -, -, -, hus, husm, hal', hsize, hge⟩ := fhi_ok_inv hE
    simp only [resSize, Option.some.injEq]
    have hal : innerAlign Hty Tty = 2 ^ max 3 (max i j) := innerAlign_eq_pow _ _ i j hH hT
    have hK63 : max 3 (max i j) ≤ 63 := Nat.max_le.mpr ⟨by norm_num, Nat.max_le.mpr ⟨hi, hj⟩⟩
    have h1K : (1 : Nat) ≤ 2 ^ max 3 (max i j) := Nat.one_le_two_pow
    by_cases hov : r.usable_size + (innerAlign Hty Tty - 1) < usizeMod
    · have hs : r.size = alignUp r.usable_size (innerAlign Hty Tty) := by
        rw [hsize, hal', hal]
        exact roundMask_eq _ _ (by omega) (by omega)
      rw [hs, hus]
    · exfalso
      have hlt : wrapping_add r.usable_size (innerAlign Hty Tty - 1) &&&
          usizeNot (innerAlign Hty Tty - 1) < r.usable_size := by
        rw [hal]
        exact roundMask_lt _ _ (by omega) husm (by omega)
      rw [hsize, hal'] at hge
      omega

theorem total_size_formula_witness :
    resSize (from_header_and_iter ⟨4, 4⟩ ⟨2, 2⟩ (1 : Nat) ⟨2, [5, 6]⟩) =
      some (alignUp (sliceOffset ⟨4, 4⟩ ⟨2, 2⟩ + 2 * 2) (innerAlign ⟨4, 4⟩ ⟨2, 2⟩)) :=
  total_size_formula ⟨4, 4⟩ ⟨2, 2⟩ 2 1 (by decide) (by decide) (by decide) (by decide) 1
    ⟨2, [5, 6]⟩ (by decide)

/-- C7: building from a zero-length exact-size iterator or from an empty
slice yields a composite with the given header, an empty slice and no element
writes at all. -/
theorem empty_sequence_build {H T : Type} (Hty Tty : RustTy) (i j : Nat)
    (hH : Hty.align = 2 ^ i) (hT : Tty.align = 2 ^ j) (hi : i ≤ 63) (hj : j ≤ 63)
    (hsz : Tty.size ≠ 0) (hdr : H)
    (hfit : sliceOffset Hty Tty + 2 * (innerAlign Hty Tty - 1) ≤ isizeMax) :
    resHeader (from_header_and_iter Hty Tty hdr ⟨0, ([] : List T)⟩) = some hdr ∧
    resWrites (from_header_and_iter Hty Tty hdr ⟨0, ([] : List T)⟩) = some [] ∧
    resSlice (from_header_and_iter Hty Tty hdr ⟨0, ([] : List T)⟩) = some [] ∧
    resHeader (from_header_and_slice Hty Tty hdr ([] : List T)) = some hdr ∧
    resWrites (from_header_and_slice Hty Tty hdr ([] : List T)) = some [] ∧
    resSlice (from_header_and_slice Hty Tty hdr ([] : List T)) = some [] := by
  have hfit0 : sliceOffset Hty Tty + Tty.size * (⟨0, ([] : List T)⟩ : ExactSizeIter T).len +
      2 * (innerAlign Hty Tty - 1) ≤ isizeMax := by simpa using hfit
  have he := fhi_eval Hty Tty i j hH hT hi hj hsz hdr ⟨0, []⟩ hfit0 rfl
  have hs : from_header_and_slice Hty Tty hdr ([] : List T) =
      from_header_and_iter Hty Tty hdr ⟨0, []⟩ := fhs_eq_fhi Hty Tty hdr []
  rw [hs, he]
  exact ⟨rfl, rfl, rfl, rfl, rfl, rfl⟩

theorem empty_sequence_build_witness :
    resHeader (from_header_and_iter ⟨4, 4⟩ ⟨2, 2⟩ (3 : Nat) ⟨0, ([] : List Nat)⟩) = some 3 ∧
    resWrites (from_header_and_iter ⟨4, 4⟩ ⟨2, 2⟩ (3 : Nat) ⟨0, ([] : List Nat)⟩) = some [] ∧
    resSlice (from_header_and_iter ⟨4, 4⟩ ⟨2, 2⟩ (3 : Nat) ⟨0, ([] : List Nat)⟩) = some [] ∧
    resHeader (from_header_and_slice ⟨4, 4⟩ ⟨2, 2⟩ (3 : Nat) ([] : List Nat)) = some 3 ∧
    resWrites (from_header_and_slice ⟨4, 4⟩ ⟨2, 2⟩ (3 : Nat) ([] : List Nat)) = some [] ∧
    resSlice (from_header_and_slice ⟨4, 4⟩ ⟨2, 2⟩ (3 : Nat) ([] : List Nat)) = some [] :=
  empty_sequence_build ⟨4, 4⟩ ⟨2, 2⟩ 2 1 (by decide) (by decide) (by decide) (by decide)
    (by decide) 3 (by decide)

/-- C8: for a zero-size element type, both builder entry points panic with the
ZST message at their very first step, before any layout computation or
allocation, regardless of the header value or requested length. -/
theorem zst_panics {H T : Type} (Hty Tty : RustTy) (hzst : Tty.size = 0)
    (hdr : H) (it : ExactSizeIter T) (ys : List T) :
    from_header_and_iter Hty Tty hdr it = .error "Need to think about ZST" ∧
    from_header_and_slice Hty Tty hdr ys = .error "Need to think about ZST" := by
  constructor
  · unfold from_header_and_iter
    rw [if_pos hzst]
  · unfold from_header_and_slice
    rw [if_pos hzst]

theorem zst_panics_witness :
    from_header_and_iter ⟨4, 4⟩ ⟨0, 1⟩ (3 : Nat) ⟨2, [5, 6]⟩ =
      .error "Need to think about ZST" ∧
    from_header_and_slice ⟨4, 4⟩ ⟨0, 1⟩ (3 : Nat) [7] =
      .error "Need to think about ZST" :=
  zst_panics ⟨4, 4⟩ ⟨0, 1⟩ (by decide) 3 ⟨2, [5, 6]⟩ [7]

/-- C9: `from_header_and_str` delegates to the byte-slice builder over the
string's raw bytes without re-validating them, and yields a handle whose text
is byte-identical to the input string and whose header is the given header
(in particular, the empty string yields empty text). -/
theorem from_header_and_str_delegates {H : Type} (Hty : RustTy) (i : Nat)
    (hH : Hty.align = 2 ^ i) (hi : i ≤ 63) (hdr : H) (s : RustStr)
    (hfit : sliceOffset Hty u8Ty + s.bytes.length + 2 * (innerAlign Hty u8Ty - 1) ≤ isizeMax) :
    from_header_and_str Hty hdr s = from_header_and_slice Hty u8Ty hdr s.bytes ∧
    resHeader (from_header_and_str Hty hdr s) = some hdr ∧
    resSlice (from_header_and_str Hty hdr s) = some s.bytes := by
  have he := fhi_eval Hty u8Ty i 0 hH (by decide) hi (by norm_num) (by decide) hdr
    ⟨s.bytes.length, s.bytes⟩ (by simpa [u8Ty] using hfit) rfl
  have hdel : from_header_and_str Hty hdr s =
      from_header_and_iter Hty u8Ty hdr ⟨s.bytes.length, s.bytes⟩ :=
    fhs_eq_fhi Hty u8Ty hdr s.bytes
  refine ⟨rfl, ?_, ?_⟩
  · rw [hdel, he]
    rfl
  · rw [hdel, he]
    simp [resSlice, ArcAlloc.slice, memcpyWrites_map_snd]

theorem from_header_and_str_delegates_witness :
    from_header_and_str ⟨4, 4⟩ (9 : Nat) ⟨[104, 105]⟩ =
      from_header_and_slice ⟨4, 4⟩ u8Ty (9 : Nat) [104, 105] ∧
    resHeader (from_header_and_str ⟨4, 4⟩ (9 : Nat) ⟨[104, 105]⟩) = some 9 ∧
    resSlice (from_header_and_str ⟨4, 4⟩ (9 : Nat) ⟨[104, 105]⟩) = some [104, 105] :=
  from_header_and_str_delegates ⟨4, 4⟩ 2 (by decide) (by decide) 9 ⟨[104, 105]⟩ (by decide)

/-- C10: in a successful non-empty build, the element write cursor starts
exactly at the computed slice offset, advances one element stride per write,
and the writes end exactly at `usable_size = slice_offset + n * element_size`
bytes past the allocation base — the layout arithmetic agrees with the actual
field offsets and the loop fills the usable region exactly. -/
theorem write_cursor_layout_agreement {H T : Type} (Hty Tty : RustTy) (i j : Nat)
    (hH : Hty.align = 2 ^ i) (hT : Tty.align = 2 ^ j) (hi : i ≤ 63) (hj : j ≤ 63)
    (hsz : Tty.size ≠ 0) (hdr : H) (it : ExactSizeIter T)
    (hfit : sliceOffset Hty Tty + Tty.size * it.len + 2 * (innerAlign Hty Tty - 1) ≤ isizeMax)
    (hexact : it.items.length = it.len) (hne : it.len ≠ 0) :
    (resWrites (from_header_and_iter Hty Tty hdr it)).map (List.map Prod.fst) =
      some ((List.range it.len).map (fun k => sliceOffset Hty Tty + k * Tty.size)) ∧
    resSliceOffset (from_header_and_iter Hty Tty hdr it) = some (sliceOffset Hty Tty) ∧
    resUsable (from_header_and_iter Hty Tty hdr it) =
      some (sliceOffset Hty Tty + Tty.size * it.len) := by
  rw [fhi_eval Hty Tty i j hH hT hi hj hsz hdr it hfit hexact]
  refine ⟨?_, rfl, rfl⟩
  show some ((memcpyWrites (sliceOffset Hty Tty) Tty.size it.items).map Prod.fst) = _
  rw [memcpyWrites_map_fst Tty.size (sliceOffset Hty Tty) it.items, hexact]

theorem write_cursor_layout_agreement_witness :
    (resWrites (from_header_and_iter ⟨8, 4⟩ ⟨2, 2⟩ (1 : Nat) ⟨2, [5, 6]⟩)).map
        (List.map Prod.fst) =
      some ((List.range 2).map (fun k => sliceOffset ⟨8, 4⟩ ⟨2, 2⟩ + k * 2)) ∧
    resSliceOffset (from_header_and_iter ⟨8, 4⟩ ⟨2, 2⟩ (1 : Nat) ⟨2, [5, 6]⟩) =
      some (sliceOffset ⟨8, 4⟩ ⟨2, 2⟩) ∧
    resUsable (from_header_and_iter ⟨8, 4⟩ ⟨2, 2⟩ (1 : Nat) ⟨2, [5, 6]⟩) =
      some (sliceOffset ⟨8, 4⟩ ⟨2, 2⟩ + 2 * 2) :=
  write_cursor_layout_agreement ⟨8, 4⟩ ⟨2, 2⟩ 2 1 (by decide) (by decide) (by decide)
    (by decide) (by decide) 1 ⟨2, [5, 6]⟩ (by decide) (by decide) (by decide)

end Triomphe
